import Mathlib

/-!
# SNANDer `main` (src/main.c): option selection, range resolution, erase / write / read / verify

A shallow embedding of `main` from `src/main.c`.

* The collaborators that are only declared in headers (`ch341a_spi_init`, `flash_cmd_init`,
  `prog.flash_erase`, `prog.flash_write`, `prog.flash_read`, `malloc`, `fopen`, `ferror`) are
  represented by the record `Env`, which fixes what each of them answers during one run.
* `main` is a function from `Env` and the sequence of options delivered by `getopt` to a `Run`:
  the trace of collaborator calls and messages, and the way the process ends.
* `long long` values are `Int`; the one subtraction on user-controlled values (`flen - addr`) is
  wrapped to 64 bits by `wrap64`, the conversion to `size_t` is `toSizeT`, the increment of the
  `int` index of the verify loop is wrapped to 32 bits by `wrap32`. Bytes are `Fin 256`.
* The embedding follows the build without `EEPROM_SUPPORT` (the `#else` branches); the handlers of
  `-E`, `-8`, `-f` depend on functions that are not part of `main.c`.
-/

namespace SNANDer

/-! ## Machine integers and bytes -/

/-- An `unsigned char`. -/
abbrev Byte := Fin 256

/-- The value `EOF` returned by `getc` at end of file. -/
def EOF : Int := -1

/-- Two's-complement reduction of an integer to a signed 64-bit `long long`. -/
def wrap64 (x : Int) : Int := (x + 2 ^ 63) % 2 ^ 64 - 2 ^ 63

/-- Two's-complement reduction of an integer to a signed 32-bit `int`. -/
def wrap32 (x : Int) : Int := (x + 2 ^ 31) % 2 ^ 32 - 2 ^ 31

/-- Conversion of a `long long` to `size_t` (unsigned 64 bits). -/
def toSizeT (x : Int) : Nat := (x % 2 ^ 64).toNat

/-- The cast `(unsigned char)` applied to an `int`. -/
def toUChar (x : Int) : Byte := ⟨(x % 256).toNat, by omega⟩

/-- One call of `getc(fp)` on a stream over `file` positioned at `pos`: the byte there as an
`int`, or `EOF` past the end. -/
def getc (file : List Byte) (pos : Nat) : Int :=
  match file[pos]? with
  | some b => (b.val : Int)
  | none => EOF

/-- The read `buf[i]` of a buffer holding `buf`; `none` when `i` is outside the buffer. -/
def bufAt (buf : List Byte) (i : Int) : Option Byte :=
  if i < 0 then none else buf[i.toNat]?

/-! ## The verify comparison (main.c lines 289-302) -/

/-- The loop
`while ((ch1 != EOF) && (i < len - 1) && (ch1 == buf[i++])) ch1 = (unsigned char)getc(fp);`
started with the given `ch1`, index `i` and file position `pos`. The result is the pair
`(ch1, i)` at loop exit. `ch1` is an `unsigned char`, so `ch1 != EOF` compares a value in
`0..255` with `-1`; `i++` is performed whenever `buf[i]` is read, also when the bytes differ.
`none` stands for a read outside the buffer or for exhausted fuel. -/
def verifyLoop (file buf : List Byte) (len : Int) : Nat → Byte → Int → Nat → Option (Byte × Int)
  | 0, _, _, _ => none
  | fuel + 1, ch1, i, pos =>
    if (ch1.val : Int) ≠ EOF then
      if i < len - 1 then
        match bufAt buf i with
        | none => none
        | some b =>
          if ch1 = b then
            verifyLoop file buf len fuel (toUChar (getc file pos)) (wrap32 (i + 1)) (pos + 1)
          else some (ch1, wrap32 (i + 1))
      else some (ch1, i)
    else some (ch1, i)

/-- Lines 290-302: `i = 0; fseek(fp, 0, SEEK_SET); ch1 = (unsigned char)getc(fp);`, the loop, and
the final test `ch1 == buf[i]`. `some true` is "Status: 成功", `some false` is "Status: 失败". -/
def verifyCompare (file buf : List Byte) (len : Int) : Option Bool :=
  match verifyLoop file buf len (len.toNat + 1) (toUChar (getc file 0)) 0 1 with
  | none => none
  | some (ch1, i) =>
    match bufAt buf i with
    | none => none
    | some b => some (decide (ch1 = b))

/-! ## Options, variables, collaborators, traces -/

/-- The options `getopt(argc, argv, "diIhveLl:a:w:r:")` delivers, in the order it delivers them.
`l` and `a` carry the value `strtoll` computes from the argument, `r` and `w` the file name;
`other` is any option `getopt` does not recognise (it returns `?`). -/
inductive Flag
  | I
  | d
  | l (n : Int)
  | a (n : Int)
  | v
  | i
  | e
  | r (file : String)
  | w (file : String)
  | L
  | h
  | other
  deriving DecidableEq, Repr

/-- The `printf` calls of `main`, `title` and `usage`, by message. -/
inductive Msg
  | title
  | usage
  | conflict
  | noProgrammer
  | eraseHdr
  | fullErase
  | align (len : Int) (bsize : Nat)
  | eraseRange (addr len : Int)
  | statusOk
  | statusErr (ret : Int)
  | statusFail
  | bufFail
  | writeHdr
  | cantOpen (fname : Option String)
  | readFileErr (fname : Option String)
  | writeRange (addr len : Int)
  | verifyHdr
  | readHdr
  | readRange (addr len : Int)
  | writeFileErr (fname : Option String)
  deriving DecidableEq, Repr

/-- What a run of `main` does that is visible outside it: messages, calls into the programmer
and flash layers with the address and length passed, and the bytes written to the output file.
`flash_write` also records the bytes `fread` stored in the buffer handed over. -/
inductive Event
  | print (m : Msg)
  | support_flash_list
  | ch341a_spi_init
  | flash_cmd_init
  | flash_erase (addr len : Int)
  | flash_write (data : List Byte) (addr len : Int)
  | flash_read (addr len : Int)
  | fwrite (data : List Byte)
  | ch341a_spi_shutdown
  deriving DecidableEq, Repr

/-- How the process ends: `return v` from `main`, `exit(v)` from `usage` or the `-L` handler, or
no defined result (division by a zero block size, a read outside the buffer). -/
inductive Outcome
  | returned (v : Int)
  | exited (v : Int)
  | undefined
  deriving DecidableEq, Repr

/-- A run of `main`: its trace and its outcome. -/
structure Run where
  trace : List Event
  outcome : Outcome
  deriving DecidableEq, Repr

/-- The run that first performs `es` and then continues as `r`. -/
def Run.pre (es : List Event) (r : Run) : Run := ⟨es ++ r.trace, r.outcome⟩

/-- The character constant `0`, the initial value of `op`. -/
def NUL : Char := Char.ofNat 0

/-- The local variables of `main` that carry data between its steps, and the three ECC globals
the option switch assigns. -/
structure Vars where
  vr : Int
  svr : Int
  ret : Int
  fname : Option String
  op : Char
  len : Int
  addr : Int
  flen : Int
  wlen : Int
  ECC_ignore : Int
  ECC_fcheck : Int
  _ondie_ecc_flag : Int
  deriving DecidableEq, Repr

/-- What the collaborators answer during one run. The ECC fields are the values of the globals
when `main` starts; `bsize` is the global block size when the erase step reads it; `source` is
the content of the file `fopen(fname, "rb")` opens (`none`: it cannot be opened); `readBack` is
the content of `buf` when `flash_read` has returned; `dest` tells whether `fopen(fname, "wb")`
succeeds; the integer fields are return values. -/
structure Env where
  ECC_ignore : Int
  ECC_fcheck : Int
  _ondie_ecc_flag : Int
  ch341a_spi_init : Int
  flash_cmd_init : Int
  bsize : Nat
  malloc : Bool
  source : Option (List Byte)
  ferror : Bool
  flash_erase : Int
  flash_write : Int
  flash_read : Int
  readBack : List Byte
  dest : Bool
  fwriteError : Bool
  deriving Repr

/-- Line 83-86: the initialisers of `main`. -/
def initVars (env : Env) : Vars where
  vr := 0
  svr := 0
  ret := 0
  fname := none
  op := NUL
  len := 0
  addr := 0
  flen := 0
  wlen := 0
  ECC_ignore := env.ECC_ignore
  ECC_fcheck := env.ECC_fcheck
  _ondie_ecc_flag := env._ondie_ecc_flag

/-! ## The option switch (lines 94-183) -/

/-- Result of the option loop: the variables when `getopt` returned `-1`, or the events of a
handler that called `exit(0)`. -/
inductive Parse
  | done (s : Vars)
  | exit (tr : List Event)
  deriving DecidableEq, Repr

/-- One pass through `switch(c)`. -/
def optStep (s : Vars) : Flag → Parse
  | .I => .done { s with ECC_ignore := 1 }
  | .d => .done { s with ECC_fcheck := 0, _ondie_ecc_flag := 0 }
  | .l n => .done { s with len := n }
  | .a n => .done { s with addr := n }
  | .v => .done { s with vr := 1 }
  | .i => .done (if s.op = NUL then { s with op := 'i' } else { s with op := 'x' })
  | .e => .done (if s.op = NUL then { s with op := 'e' } else { s with op := 'x' })
  | .r f => .done (if s.op = NUL then { s with op := 'r', fname := some f }
      else { s with op := 'x' })
  | .w f => .done (if s.op = NUL then { s with op := 'w', fname := some f }
      else { s with op := 'x' })
  | .L => .exit [.support_flash_list]
  | .h => .exit [.print .usage]
  | .other => .exit [.print .usage]

/-- The loop `while ((c = getopt(...)) != -1) switch(c) ...`. -/
def getoptLoop : Vars → List Flag → Parse
  | s, [] => .done s
  | s, f :: fs =>
    match optStep s f with
    | .done s1 => getoptLoop s1 fs
    | .exit tr => .exit tr

/-! ## The executors -/

/-- Label `out:` — `ch341a_spi_shutdown(); return 0;`. -/
def out : Run := ⟨[.ch341a_spi_shutdown], .returned 0⟩

/-- Lines 211-216: range defaults of the erase step. -/
def eraseResolve (s : Vars) : Vars :=
  if s.addr ≠ 0 ∧ s.len = 0 then { s with len := wrap64 (s.flen - s.addr) }
  else if s.addr = 0 ∧ s.len = 0 then { s with len := s.flen }
  else s

/-- Lines 231-235: range defaults of the read and write steps. -/
def rwResolve (s : Vars) : Vars :=
  if s.addr ≠ 0 ∧ s.len = 0 then { s with len := wrap64 (s.flen - s.addr) }
  else if s.addr = 0 ∧ s.len = 0 then { s with len := s.flen }
  else s

/-- Lines 209-228: the erase step. `len % bsize` is the remainder of C (truncating), with
`bsize` widened from `unsigned int`; a zero `bsize` has no defined result. -/
def eraseExec (env : Env) (s : Vars) : Run :=
  Run.pre (.print .eraseHdr :: (if s.addr = 0 ∧ s.len = 0 then [.print .fullErase] else [])) <|
  let s := eraseResolve s
  if env.bsize = 0 then ⟨[], .undefined⟩
  else if Int.tmod s.len (env.bsize : Int) ≠ 0 then
    Run.pre [.print (.align s.len env.bsize)] out
  else
    let s := { s with ret := env.flash_erase }
    Run.pre [.print (.eraseRange s.addr s.len), .flash_erase s.addr s.len,
      .print (if s.ret = 0 then .statusOk else .statusErr s.ret)] out

/-- Lines 289-305: the comparison of the verify pass against the source stream `fp`. -/
def verifyExec (env : Env) (s : Vars) (fp : Option (List Byte)) : Run :=
  match fp with
  | none => ⟨[], .undefined⟩
  | some file =>
    match verifyCompare file env.readBack s.len with
    | none => ⟨[], .undefined⟩
    | some true => Run.pre [.print .statusOk] out
    | some false => Run.pre [.print .statusFail] out

/-- Label `very:`, lines 279-319: the read step, entered directly or from the write step with
`svr` set. -/
def readExec (env : Env) (s : Vars) (fp : Option (List Byte)) : Run :=
  if s.op = 'r' then
    Run.pre ((if s.svr = 0 then [.print .readHdr] else []) ++
      [.print (.readRange s.addr s.len), .flash_read s.addr s.len]) <|
    let s := { s with ret := env.flash_read }
    if s.ret < 0 then Run.pre [.print (.statusErr s.ret)] out
    else if s.svr ≠ 0 then verifyExec env s fp
    else if env.dest = false then Run.pre [.print (.cantOpen s.fname)] out
    else
      Run.pre (.fwrite (env.readBack.take (toSizeT s.len)) ::
        ((if env.fwriteError then [.print (.writeFileErr s.fname)] else []) ++
          [.print .statusOk])) out
  else out

/-- The count `fread(buf, 1, len, fp)` returns on the freshly opened source file when no stream
error occurs: the requested count, taken as a `size_t`, or the size of the file if that is
smaller. -/
def fread (file : List Byte) (len : Int) : Nat := min (toSizeT len) file.length

/-- Lines 259-260: `if(len == flen) len = wlen;`. -/
def narrow (s : Vars) : Vars :=
  if s.len = s.flen then { s with len := s.wlen } else s

/-- Lines 243-276: the write step; it ends in the read step (`goto very` with `op = 'r'`,
`svr = 1`, or by falling through with `op` still `'w'`). -/
def writeExec (env : Env) (s : Vars) : Run :=
  if s.op = 'w' then
    Run.pre [.print .writeHdr] <|
    match env.source with
    | none => Run.pre [.print (.cantOpen s.fname)] out
    | some file =>
      let s := { s with wlen := (fread file s.len : Nat) }
      if env.ferror then Run.pre [.print (.readFileErr s.fname)] out
      else
        let s := narrow s
        Run.pre [.print (.writeRange s.addr s.len),
          .flash_write (file.take s.wlen.toNat) s.addr s.len] <|
        let s := { s with ret := env.flash_write }
        if s.ret > 0 then
          Run.pre [.print .statusOk] <|
          if s.vr ≠ 0 then
            Run.pre [.print .verifyHdr] (readExec env { s with op := 'r', svr := 1 } (some file))
          else readExec env s (some file)
        else Run.pre [.print (.statusErr s.ret)] (readExec env s (some file))
  else readExec env s none

/-- Lines 230-241: range defaults and buffer allocation for read and write, then the two
steps. -/
def rwExec (env : Env) (s : Vars) : Run :=
  if s.op = 'r' ∨ s.op = 'w' then
    let s := rwResolve s
    if env.malloc = false then Run.pre [.print .bufFail] out
    else writeExec env s
  else writeExec env s

/-- Lines 185-207 and the dispatch on `op`: usage when no operation was chosen, the conflict
test, the programmer and flash initialisation, then the executor of the operation. -/
def afterOptions (env : Env) (s : Vars) : Run :=
  if s.op = NUL then ⟨[.print .usage], .exited 0⟩
  else if s.op = 'x' ∨ (s.ECC_ignore ≠ 0 ∧ s.ECC_fcheck = 0)
      ∨ (s.op = 'w' ∧ s.ECC_ignore ≠ 0) then
    ⟨[.print .conflict], .returned (-1)⟩
  else if env.ch341a_spi_init < 0 then
    ⟨[.ch341a_spi_init, .print .noProgrammer], .returned (-1)⟩
  else
    Run.pre [.ch341a_spi_init, .flash_cmd_init] <|
    let s := { s with flen := env.flash_cmd_init }
    if s.flen ≤ 0 then out
    else if s.op = 'i' then out
    else if s.op = 'e' then eraseExec env s
    else rwExec env s

/-- The function `main` of main.c: `title()`, the option loop, then `afterOptions`. -/
def main (env : Env) (flags : List Flag) : Run :=
  Run.pre [.print .title] <|
  match getoptLoop (initVars env) flags with
  | .exit tr => ⟨tr, .exited 0⟩
  | .done s => afterOptions env s

/-- The calls of `flash_erase`, `flash_write` and `flash_read` in a trace. -/
def transportCalls (tr : List Event) : List Event :=
  tr.filter fun ev =>
    match ev with
    | .flash_erase _ _ => true
    | .flash_write _ _ _ => true
    | .flash_read _ _ => true
    | _ => false

/-- The calls that touch the programmer or the flash chip: `ch341a_spi_init`,
`flash_cmd_init` and the three transport calls. -/
def deviceCalls (tr : List Event) : List Event :=
  tr.filter fun ev =>
    match ev with
    | .ch341a_spi_init => true
    | .flash_cmd_init => true
    | .flash_erase _ _ => true
    | .flash_write _ _ _ => true
    | .flash_read _ _ => true
    | _ => false

/-- The options that choose a primary operation: `-i`, `-e`, `-r`, `-w`. -/
def Flag.isPrimary : Flag → Bool
  | .i => true
  | .e => true
  | .r _ => true
  | .w _ => true
  | _ => false

/-- The option `-w`. -/
def Flag.isWrite : Flag → Bool
  | .w _ => true
  | _ => false

/-- The options whose handler ends the process with `exit(0)`: `-L`, `-h` and any option
`getopt` does not recognise. -/
def Flag.exits : Flag → Bool
  | .L => true
  | .h => true
  | .other => true
  | _ => false

/-- A sequence of options with two or more primary-operation options, or `-I` together with
`-w`, or `-I` together with `-d`. -/
def Conflicting (flags : List Flag) : Prop :=
  2 ≤ (flags.filter Flag.isPrimary).length ∨
    (Flag.I ∈ flags ∧ flags.any Flag.isWrite = true) ∨
    (Flag.I ∈ flags ∧ Flag.d ∈ flags)

/-- The condition tested at line 187:
`op == 'x' || (ECC_ignore && !ECC_fcheck) || (op == 'w' && ECC_ignore)`. -/
def conflictState (s : Vars) : Prop :=
  s.op = 'x' ∨ (s.ECC_ignore ≠ 0 ∧ s.ECC_fcheck = 0) ∨ (s.op = 'w' ∧ s.ECC_ignore ≠ 0)

/-- The length `main` passes to `flash_write` on a chip of length `T` with source file `file`:
the value of `len` after `rwResolve`, `fread` and `narrow`, starting from the variables `s` the
option loop left. -/
def writeLen (T : Int) (s : Vars) (file : List Byte) : Int :=
  (narrow { rwResolve { s with flen := T } with
    wlen := (fread file (rwResolve { s with flen := T }).len : Nat) }).len

/-- The address and length of each `flash_write` call in a trace. -/
def writeCalls (tr : List Event) : List (Int × Int) :=
  tr.filterMap fun ev =>
    match ev with
    | .flash_write _ a l => some (a, l)
    | _ => none

/-- Every `flash_erase`, `flash_write` and `flash_read` call in the trace is made with an address
and a length that satisfy `P`. -/
def callsAll (P : Int → Int → Prop) (tr : List Event) : Prop :=
  ∀ ev ∈ tr,
    match ev with
    | .flash_erase a l => P a l
    | .flash_write _ a l => P a l
    | .flash_read a l => P a l
    | _ => True

/-- An environment in which every collaborator succeeds: a chip of `T` bytes with block size
`bs`, a source file `file`, a buffer `rb` after `flash_read`, and `wr` returned by
`flash_write`. -/
def okEnv (T : Int) (bs : Nat) (file rb : List Byte) (wr : Int) : Env where
  ECC_ignore := 0
  ECC_fcheck := 1
  _ondie_ecc_flag := 1
  ch341a_spi_init := 0
  flash_cmd_init := T
  bsize := bs
  malloc := true
  source := some file
  ferror := false
  flash_erase := 0
  flash_write := wr
  flash_read := 0
  readBack := rb
  dest := true
  fwriteError := false

/-! ## Lemmas on the verify comparison -/

theorem toUChar_val (b : Byte) : toUChar (b.val : Int) = b := by
  apply Fin.ext
  have := b.isLt
  simp only [toUChar]
  omega

theorem byte_ne_EOF (b : Byte) : (b.val : Int) ≠ EOF := by
  simp only [EOF]
  omega

theorem wrap32_small (x : Int) (h0 : 0 ≤ x) (h1 : x < 2 ^ 31) : wrap32 x = x := by
  simp only [wrap32]
  omega

theorem wrap64_small (x : Int) (h0 : -(2 ^ 63) ≤ x) (h1 : x < 2 ^ 63) : wrap64 x = x := by
  simp only [wrap64]
  omega

theorem bufAt_natCast (buf : List Byte) (k : Nat) : bufAt buf (k : Int) = buf[k]? := by
  simp [bufAt]

theorem getc_some (file : List Byte) (pos : Nat) (c : Byte) (h : file[pos]? = some c) :
    toUChar (getc file pos) = c := by
  simp [getc, h, toUChar_val]

/-- While buffer and file agree on the positions before `L - 1`, the loop runs the index up to
`L - 1` and leaves `ch1` equal to the file byte at `L - 1`. -/
theorem verifyLoop_agree (file buf : List Byte) (L : Nat) (hL : (L : Int) < 2 ^ 31)
    (hfile : L ≤ file.length) (hm : ∀ j, j + 1 < L → buf[j]? = file[j]?) :
    ∀ (n k fuel : Nat) (c : Byte), k + n + 1 = L → n + 1 ≤ fuel → file[k]? = some c →
      ∃ c1, file[L - 1]? = some c1 ∧
        verifyLoop file buf (L : Int) fuel c (k : Int) (k + 1) = some (c1, ((L - 1 : Nat) : Int)) := by
  intro n
  induction n with
  | zero =>
    intro k fuel c hk hfuel hc
    obtain ⟨f, rfl⟩ : ∃ f, fuel = f + 1 := ⟨fuel - 1, by omega⟩
    have hk1 : k = L - 1 := by omega
    subst hk1
    refine ⟨c, hc, ?_⟩
    have h1 : ¬ (((L - 1 : Nat) : Int) < (L : Int) - 1) := by omega
    simp [verifyLoop, byte_ne_EOF, h1]
  | succ n ih =>
    intro k fuel c hk hfuel hc
    obtain ⟨f, rfl⟩ : ∃ f, fuel = f + 1 := ⟨fuel - 1, by omega⟩
    have hlt : (k : Int) < (L : Int) - 1 := by omega
    have hb : bufAt buf (k : Int) = some c := by
      rw [bufAt_natCast, hm k (by omega), hc]
    have hk1 : k + 1 < file.length := by omega
    obtain ⟨c2, hc2⟩ : ∃ c2, file[k + 1]? = some c2 :=
      ⟨file[k + 1], List.getElem?_eq_getElem hk1⟩
    have hw : wrap32 ((k : Int) + 1) = ((k + 1 : Nat) : Int) := by
      rw [wrap32_small] <;> omega
    obtain ⟨c1, hc1, hrun⟩ := ih (k + 1) f c2 (by omega) (by omega) hc2
    refine ⟨c1, hc1, ?_⟩
    rw [verifyLoop]
    simp only [byte_ne_EOF, hlt, hb, getc_some file (k + 1) c2 hc2, hw]
    simpa using hrun

/-- The comparison on a buffer that agrees with the file before position `L - 1`: the verdict is
the comparison of the two bytes at position `L - 1`. -/
theorem verifyCompare_agree (file buf : List Byte) (L : Nat) (h1 : 1 ≤ L)
    (hL : (L : Int) < 2 ^ 31) (hfile : L ≤ file.length)
    (hm : ∀ j, j + 1 < L → buf[j]? = file[j]?) (c b : Byte)
    (hc : file[L - 1]? = some c) (hb : buf[L - 1]? = some b) :
    verifyCompare file buf (L : Int) = some (decide (c = b)) := by
  have h0 : 0 < file.length := by omega
  obtain ⟨c0, hc0⟩ : ∃ c0, file[0]? = some c0 := ⟨file[0], List.getElem?_eq_getElem h0⟩
  obtain ⟨c1, hc1, hrun⟩ :=
    verifyLoop_agree file buf L hL hfile hm (L - 1) 0 (L + 1) c0 (by omega) (by omega) hc0
  have hcc : c1 = c := by
    rw [hc] at hc1
    exact (Option.some.inj hc1).symm
  subst hcc
  have hrun1 : verifyLoop file buf (L : Int) ((L : Int).toNat + 1) (toUChar (getc file 0)) 0 1
      = some (c1, ((L - 1 : Nat) : Int)) := by
    rw [getc_some file 0 c0 hc0]
    simpa using hrun
  simp only [verifyCompare, hrun1, bufAt_natCast, hb]

/-! ## The verify pass: claims C1, C2, C10 -/

/-- C2: for every length `L` with `1 ≤ L < 2^31`, every source file of at least `L` bytes and
every buffer whose first `L` bytes equal the first `L` bytes of the file, the comparison of the
verify pass yields success, and the verify step prints "Status: 成功". -/
theorem verify_roundtrip_passes (file buf : List Byte) (L : Nat) (h1 : 1 ≤ L)
    (hL : (L : Int) < 2 ^ 31) (hfile : L ≤ file.length) (heq : buf.take L = file.take L) :
    verifyCompare file buf (L : Int) = some true ∧
      ∀ (env : Env) (s : Vars), env.readBack = buf → s.len = (L : Int) →
        verifyExec env s (some file) = Run.pre [.print .statusOk] out := by
  have hpt : ∀ j, j < L → buf[j]? = file[j]? := by
    intro j hj
    have h := congrArg (fun l : List Byte => l[j]?) heq
    simpa [List.getElem?_take, hj] using h
  have hlast : L - 1 < file.length := by omega
  have hc : file[L - 1]? = some file[L - 1] := List.getElem?_eq_getElem hlast
  have hb : buf[L - 1]? = some file[L - 1] := by rw [hpt (L - 1) (by omega), hc]
  have hv := verifyCompare_agree file buf L h1 hL hfile (fun j hj => hpt j (by omega))
    file[L - 1] file[L - 1] hc hb
  have hv1 : verifyCompare file buf (L : Int) = some true := by simpa using hv
  refine ⟨hv1, ?_⟩
  intro env s hrb hlen
  simp [verifyExec, hrb, hlen, hv1]

theorem verify_roundtrip_passes_witness :
    verifyCompare [1, 2, 3] [1, 2, 3, 0] ((3 : Nat) : Int) = some true ∧
      verifyExec (okEnv 1048576 4096 [1, 2, 3] [1, 2, 3, 0] 3)
        { initVars (okEnv 1048576 4096 [1, 2, 3] [1, 2, 3, 0] 3) with len := 3 }
        (some [1, 2, 3]) = Run.pre [.print .statusOk] out :=
  ⟨(verify_roundtrip_passes [1, 2, 3] [1, 2, 3, 0] 3 (by decide) (by decide) (by decide)
      (by decide)).1,
    (verify_roundtrip_passes [1, 2, 3] [1, 2, 3, 0] 3 (by decide) (by decide) (by decide)
      (by decide)).2 (okEnv 1048576 4096 [1, 2, 3] [1, 2, 3, 0] 3)
      { initVars (okEnv 1048576 4096 [1, 2, 3] [1, 2, 3, 0] 3) with len := 3 } rfl rfl⟩

/-- C10: for every length `L` with `1 ≤ L < 2^31`, every source file of at least `L` bytes and
every buffer of at least `L` bytes that equals the file on the positions before `L - 1` and
differs from it at position `L - 1`, the comparison of the verify pass yields failure, and the
verify step prints "Status: 失败": byte `L - 1` is compared. -/
theorem verify_checks_last_byte (file buf : List Byte) (L : Nat) (h1 : 1 ≤ L)
    (hL : (L : Int) < 2 ^ 31) (hfile : L ≤ file.length) (hbuf : L ≤ buf.length)
    (hm : ∀ j, j + 1 < L → buf[j]? = file[j]?) (hd : buf[L - 1]? ≠ file[L - 1]?) :
    verifyCompare file buf (L : Int) = some false ∧
      ∀ (env : Env) (s : Vars), env.readBack = buf → s.len = (L : Int) →
        verifyExec env s (some file) = Run.pre [.print .statusFail] out := by
  have hlf : L - 1 < file.length := by omega
  have hlb : L - 1 < buf.length := by omega
  have hc : file[L - 1]? = some file[L - 1] := List.getElem?_eq_getElem hlf
  have hb : buf[L - 1]? = some buf[L - 1] := List.getElem?_eq_getElem hlb
  have hne : ¬ (file[L - 1] = buf[L - 1]) := by
    intro h
    apply hd
    rw [hc, hb, h]
  have hv := verifyCompare_agree file buf L h1 hL hfile hm file[L - 1] buf[L - 1] hc hb
  have hv1 : verifyCompare file buf (L : Int) = some false := by simpa [hne] using hv
  refine ⟨hv1, ?_⟩
  intro env s hrb hlen
  simp [verifyExec, hrb, hlen, hv1]

theorem verify_checks_last_byte_witness :
    verifyExec (okEnv 1048576 4096 [1, 2, 3] [1, 2, 7, 0] 3)
      { initVars (okEnv 1048576 4096 [1, 2, 3] [1, 2, 7, 0] 3) with len := 3 }
      (some [1, 2, 3]) = Run.pre [.print .statusFail] out :=
  (verify_checks_last_byte [1, 2, 3] [1, 2, 7, 0] 3 (by decide) (by decide) (by decide)
    (by decide)
    (by
      intro j hj
      have hj2 : j = 0 ∨ j = 1 := by omega
      rcases hj2 with rfl | rfl <;> rfl)
    (by decide)).2 (okEnv 1048576 4096 [1, 2, 3] [1, 2, 7, 0] 3)
    { initVars (okEnv 1048576 4096 [1, 2, 3] [1, 2, 7, 0] 3) with len := 3 } rfl rfl

/-- C1 (the code departs from the claim): with the two-byte source file `FF FF`, length 2 and the
buffer `00 FF` after `flash_read`, buffer and file differ at position 0, yet the comparison
yields success: the mismatch at index 0 ends the loop with `i` already advanced to 1, and the
final test compares the file byte 0 with `buf[1]`. The whole run `-w f -l 2 -v` prints
"Status: 成功" for the verify pass and never "Status: 失败". -/
theorem verify_misses_difference :
    ([0, 255, 0] : List Byte)[0]? ≠ ([255, 255] : List Byte)[0]? ∧
      verifyCompare [255, 255] [0, 255, 0] 2 = some true ∧
      (main (okEnv 1048576 4096 [255, 255] [0, 255, 0] 2) [.w "f", .l 2, .v]).trace =
        [.print .title, .ch341a_spi_init, .flash_cmd_init, .print .writeHdr,
          .print (.writeRange 0 2), .flash_write [255, 255] 0 2, .print .statusOk,
          .print .verifyHdr, .print (.readRange 0 2), .flash_read 0 2, .print .statusOk,
          .ch341a_spi_shutdown] := by
  decide

/-! ## The shape of a run -/

theorem tmod_ne_zero_iff (R : Int) (b : Nat) : Int.tmod R (b : Int) ≠ 0 ↔ ¬ ((b : Int) ∣ R) := by
  constructor
  · intro h hd
    exact h (Int.tmod_eq_zero_of_dvd hd)
  · intro h h0
    exact h (Int.dvd_of_tmod_eq_zero h0)

theorem transportCalls_pre (es : List Event) (r : Run) :
    transportCalls (Run.pre es r).trace = transportCalls es ++ transportCalls r.trace := by
  simp [transportCalls, Run.pre]

theorem transportCalls_out : transportCalls out.trace = [] := by
  simp [transportCalls, out]

theorem main_of_done (env : Env) (flags : List Flag) (s : Vars)
    (hs : getoptLoop (initVars env) flags = .done s) :
    main env flags = Run.pre [.print .title] (afterOptions env s) := by
  simp only [main, hs]

/-- With an operation chosen, no conflict, the programmer found and a chip of positive size,
`main` reaches the dispatch on `op`. -/
theorem afterOptions_dispatch (env : Env) (s : Vars) (hnul : s.op ≠ NUL) (hx : s.op ≠ 'x')
    (hecc : ¬ (s.ECC_ignore ≠ 0 ∧ s.ECC_fcheck = 0)) (hw : ¬ (s.op = 'w' ∧ s.ECC_ignore ≠ 0))
    (hspi : 0 ≤ env.ch341a_spi_init) (hflen : 0 < env.flash_cmd_init) :
    afterOptions env s = Run.pre [.ch341a_spi_init, .flash_cmd_init]
      (if s.op = 'i' then out
        else if s.op = 'e' then eraseExec env { s with flen := env.flash_cmd_init }
        else rwExec env { s with flen := env.flash_cmd_init }) := by
  unfold afterOptions
  rw [if_neg hnul, if_neg (by tauto), if_neg (not_lt.mpr hspi)]
  dsimp only
  rw [if_neg (not_le.mpr hflen)]

theorem afterOptions_erase (env : Env) (s : Vars) (hop : s.op = 'e')
    (hecc : ¬ (s.ECC_ignore ≠ 0 ∧ s.ECC_fcheck = 0))
    (hspi : 0 ≤ env.ch341a_spi_init) (hflen : 0 < env.flash_cmd_init) :
    afterOptions env s = Run.pre [.ch341a_spi_init, .flash_cmd_init]
      (eraseExec env { s with flen := env.flash_cmd_init }) := by
  have hne : s.op ≠ 'w' := by rw [hop]; decide
  rw [afterOptions_dispatch env s (by rw [hop]; decide) (by rw [hop]; decide) hecc
    (fun h => hne h.1) hspi hflen]
  rw [if_neg (by rw [hop]; decide), if_pos hop]

theorem afterOptions_write (env : Env) (s : Vars) (hop : s.op = 'w') (hign : s.ECC_ignore = 0)
    (hspi : 0 ≤ env.ch341a_spi_init) (hflen : 0 < env.flash_cmd_init) :
    afterOptions env s = Run.pre [.ch341a_spi_init, .flash_cmd_init]
      (rwExec env { s with flen := env.flash_cmd_init }) := by
  rw [afterOptions_dispatch env s (by rw [hop]; decide) (by rw [hop]; decide)
    (by simp [hign]) (by simp [hign]) hspi hflen]
  rw [if_neg (by rw [hop]; decide), if_neg (by rw [hop]; decide)]

theorem eraseResolve_addr (s : Vars) : (eraseResolve s).addr = s.addr := by
  simp only [eraseResolve]
  split_ifs <;> rfl

theorem rwResolve_addr (s : Vars) : (rwResolve s).addr = s.addr := by
  simp only [rwResolve]
  split_ifs <;> rfl

/-- The transport calls of the erase step with a positive block size. -/
theorem eraseExec_calls (env : Env) (s : Vars) (hbs : 0 < env.bsize) :
    transportCalls (eraseExec env s).trace =
      if (env.bsize : Int) ∣ (eraseResolve s).len then
        [.flash_erase s.addr (eraseResolve s).len] else [] := by
  have hbs0 : env.bsize ≠ 0 := by omega
  unfold eraseExec
  rw [transportCalls_pre]
  dsimp only
  rw [if_neg hbs0]
  by_cases hd : (env.bsize : Int) ∣ (eraseResolve s).len
  · rw [if_neg (not_not.mpr (Int.tmod_eq_zero_of_dvd hd)), if_pos hd, transportCalls_pre,
      eraseResolve_addr]
    by_cases h0 : s.addr = 0 ∧ s.len = 0 <;> simp [h0, transportCalls, out]
  · rw [if_pos ((tmod_ne_zero_iff _ _).mpr hd), if_neg hd, transportCalls_pre]
    by_cases h0 : s.addr = 0 ∧ s.len = 0 <;> simp [h0, transportCalls, out]

/-! ## A property of every transport call of a run -/

theorem callsAll_pre (P : Int → Int → Prop) (es : List Event) (r : Run) :
    callsAll P (Run.pre es r).trace ↔ callsAll P es ∧ callsAll P r.trace := by
  simp only [callsAll, Run.pre, List.mem_append]
  constructor
  · intro h
    exact ⟨fun ev hev => h ev (Or.inl hev), fun ev hev => h ev (Or.inr hev)⟩
  · rintro ⟨h1, h2⟩ ev (hev | hev)
    · exact h1 ev hev
    · exact h2 ev hev

theorem callsAll_nil (P : Int → Int → Prop) : callsAll P [] := by
  simp [callsAll]

theorem callsAll_cons (P : Int → Int → Prop) (ev : Event) (tr : List Event) :
    callsAll P (ev :: tr) ↔
      (match ev with
        | .flash_erase a l => P a l
        | .flash_write _ a l => P a l
        | .flash_read a l => P a l
        | _ => True) ∧ callsAll P tr := by
  simp [callsAll]

theorem callsAll_append (P : Int → Int → Prop) (es tr : List Event) :
    callsAll P (es ++ tr) ↔ callsAll P es ∧ callsAll P tr := by
  simpa [Run.pre] using callsAll_pre P es ⟨tr, .undefined⟩

theorem callsAll_out (P : Int → Int → Prop) : callsAll P out.trace := by
  simp [callsAll, out]

theorem callsAll_verifyExec (P : Int → Int → Prop) (env : Env) (s : Vars)
    (fp : Option (List Byte)) : callsAll P (verifyExec env s fp).trace := by
  unfold verifyExec
  cases fp with
  | none => simp [callsAll]
  | some file =>
    dsimp only
    cases verifyCompare file env.readBack s.len with
    | none => simp [callsAll]
    | some b => cases b <;> simp [callsAll, Run.pre, out]

theorem callsAll_readExec (P : Int → Int → Prop) (env : Env) (s : Vars)
    (fp : Option (List Byte)) (h : P s.addr s.len) : callsAll P (readExec env s fp).trace := by
  unfold readExec
  dsimp only
  split_ifs <;>
    simp [callsAll_pre, callsAll_cons, callsAll_nil, callsAll_append, callsAll_out,
      callsAll_verifyExec, h]

/-- Every transport call of the write step satisfies `P` when `P` holds of the address with
`len` and, in case `len == flen`, with the count `fread` returns. -/
theorem callsAll_writeExec (P : Int → Int → Prop) (env : Env) (s : Vars)
    (h : P s.addr s.len)
    (hn : ∀ file, env.source = some file → s.len = s.flen → P s.addr (fread file s.len : Nat)) :
    callsAll P (writeExec env s).trace := by
  unfold writeExec
  by_cases hop : s.op = 'w'
  · rw [if_pos hop]
    cases hsrc : env.source with
    | none => simp [callsAll_pre, callsAll_cons, callsAll_nil, callsAll_out]
    | some file =>
      dsimp only
      by_cases hlen : s.len = s.flen
      · have hP := hn file hsrc hlen
        have hnar : narrow { s with wlen := (fread file s.len : Nat) }
            = { s with wlen := (fread file s.len : Nat), len := (fread file s.len : Nat) } := by
          simp [narrow, hlen]
        rw [hnar]
        split_ifs <;>
          simp [callsAll_pre, callsAll_cons, callsAll_nil, callsAll_out]
        all_goals exact ⟨hP, callsAll_readExec P env _ _ hP⟩
      · have hnar : narrow { s with wlen := (fread file s.len : Nat) }
            = { s with wlen := (fread file s.len : Nat) } := by
          simp [narrow, hlen]
        rw [hnar]
        split_ifs <;>
          simp [callsAll_pre, callsAll_cons, callsAll_nil, callsAll_out]
        all_goals exact ⟨h, callsAll_readExec P env _ _ h⟩
  · rw [if_neg hop]
    exact callsAll_readExec P env s none h

theorem callsAll_eraseExec (P : Int → Int → Prop) (env : Env) (s : Vars)
    (h : P s.addr (eraseResolve s).len) : callsAll P (eraseExec env s).trace := by
  unfold eraseExec
  dsimp only
  rw [eraseResolve_addr]
  split_ifs <;> simp [callsAll_pre, callsAll_cons, callsAll_nil, callsAll_out, h]

theorem rwResolve_flen (s : Vars) : (rwResolve s).flen = s.flen := by
  simp only [rwResolve]
  split_ifs <;> rfl

theorem rwResolve_op (s : Vars) : (rwResolve s).op = s.op := by
  simp only [rwResolve]
  split_ifs <;> rfl

theorem callsAll_rwExec (P : Int → Int → Prop) (env : Env) (s : Vars)
    (h : P s.addr (rwResolve s).len)
    (hn : ∀ file, env.source = some file → (rwResolve s).len = s.flen →
      P s.addr (fread file (rwResolve s).len : Nat)) :
    callsAll P (rwExec env s).trace := by
  unfold rwExec
  by_cases hop : s.op = 'r' ∨ s.op = 'w'
  · rw [if_pos hop]
    dsimp only
    by_cases hm : env.malloc = false
    · rw [if_pos hm]
      simp [callsAll_pre, callsAll_cons, callsAll_nil, callsAll_out]
    · rw [if_neg hm]
      apply callsAll_writeExec
      · rw [rwResolve_addr]
        exact h
      · intro file hsrc hlen
        rw [rwResolve_addr]
        rw [rwResolve_flen] at hlen
        exact hn file hsrc hlen
  · rw [if_neg hop]
    have hw : ¬ s.op = 'w' := fun h => hop (Or.inr h)
    have hr : ¬ s.op = 'r' := fun h => hop (Or.inl h)
    unfold writeExec
    rw [if_neg hw]
    unfold readExec
    rw [if_neg hr]
    exact callsAll_out P

theorem callsAll_afterOptions (P : Int → Int → Prop) (env : Env) (s : Vars)
    (hE : 0 < env.flash_cmd_init →
      P s.addr (eraseResolve { s with flen := env.flash_cmd_init }).len)
    (hRW : 0 < env.flash_cmd_init →
      P s.addr (rwResolve { s with flen := env.flash_cmd_init }).len)
    (hN : 0 < env.flash_cmd_init → ∀ file, env.source = some file →
      (rwResolve { s with flen := env.flash_cmd_init }).len = env.flash_cmd_init →
      P s.addr (fread file (rwResolve { s with flen := env.flash_cmd_init }).len : Nat)) :
    callsAll P (afterOptions env s).trace := by
  unfold afterOptions
  dsimp only
  split_ifs with h1 h2 h3 h4 h5 h6
  · simp [callsAll_cons, callsAll_nil]
  · simp [callsAll_cons, callsAll_nil]
  · simp [callsAll_cons, callsAll_nil]
  · simp [callsAll_pre, callsAll_cons, callsAll_nil, callsAll_out]
  · simp [callsAll_pre, callsAll_cons, callsAll_nil, callsAll_out]
  · rw [callsAll_pre]
    exact ⟨by simp [callsAll_cons, callsAll_nil],
      callsAll_eraseExec P env _ (hE (not_le.mp h4))⟩
  · rw [callsAll_pre]
    exact ⟨by simp [callsAll_cons, callsAll_nil],
      callsAll_rwExec P env _ (hRW (not_le.mp h4)) (hN (not_le.mp h4))⟩

/-- Every transport call of a run of `main` satisfies `P` when `P` holds of the address given by
the options together with each length the executors can pass. -/
theorem callsAll_main (P : Int → Int → Prop) (env : Env) (flags : List Flag) (s : Vars)
    (hs : getoptLoop (initVars env) flags = .done s)
    (hE : 0 < env.flash_cmd_init →
      P s.addr (eraseResolve { s with flen := env.flash_cmd_init }).len)
    (hRW : 0 < env.flash_cmd_init →
      P s.addr (rwResolve { s with flen := env.flash_cmd_init }).len)
    (hN : 0 < env.flash_cmd_init → ∀ file, env.source = some file →
      (rwResolve { s with flen := env.flash_cmd_init }).len = env.flash_cmd_init →
      P s.addr (fread file (rwResolve { s with flen := env.flash_cmd_init }).len : Nat)) :
    callsAll P (main env flags).trace := by
  rw [main_of_done env flags s hs, callsAll_pre]
  exact ⟨by simp [callsAll_cons, callsAll_nil], callsAll_afterOptions P env s hE hRW hN⟩

/-! ## Erase: claims C7, C8 -/

/-- C7: for every run in which the option loop ends with `op = 'e'` and no ECC conflict, the
programmer and the chip are found and the block size is positive, with `R` the length after
range resolution: if `R` is not a multiple of `bsize`, no `flash_erase`, `flash_write` or
`flash_read` call is made; if it is, the only such call is one `flash_erase(addr, R)`. On a chip
of 1048576 bytes with block size 4096, `-e` alone erases `(0, 1048576)` and `-e -l 5000` makes no
transport call. -/
theorem erase_iff_block_aligned :
    (∀ (env : Env) (flags : List Flag) (s : Vars),
      getoptLoop (initVars env) flags = .done s → s.op = 'e' →
      ¬ (s.ECC_ignore ≠ 0 ∧ s.ECC_fcheck = 0) → 0 ≤ env.ch341a_spi_init →
      0 < env.flash_cmd_init → 0 < env.bsize →
      (¬ ((env.bsize : Int) ∣ (eraseResolve { s with flen := env.flash_cmd_init }).len) →
        transportCalls (main env flags).trace = []) ∧
      ((env.bsize : Int) ∣ (eraseResolve { s with flen := env.flash_cmd_init }).len →
        transportCalls (main env flags).trace =
          [.flash_erase s.addr (eraseResolve { s with flen := env.flash_cmd_init }).len])) ∧
    (eraseResolve { initVars (okEnv 1048576 4096 [] [] 0) with
      op := 'e', flen := 1048576 }).len = 1048576 ∧
    transportCalls (main (okEnv 1048576 4096 [] [] 0) [.e]).trace = [.flash_erase 0 1048576] ∧
    transportCalls (main (okEnv 1048576 4096 [] [] 0) [.e, .l 5000]).trace = [] := by
  refine ⟨?_, by decide, by decide, by decide⟩
  intro env flags s hs hop hecc hspi hflen hbs
  have hrun : transportCalls (main env flags).trace =
      transportCalls (eraseExec env { s with flen := env.flash_cmd_init }).trace := by
    rw [main_of_done env flags s hs, afterOptions_erase env s hop hecc hspi hflen,
      transportCalls_pre, transportCalls_pre]
    simp [transportCalls]
  rw [hrun, eraseExec_calls env _ hbs]
  constructor
  · intro hnd
    rw [if_neg hnd]
  · intro hd
    rw [if_pos hd]

theorem erase_iff_block_aligned_witness :
    ((4096 : Int) ∣ 8192 →
      transportCalls (main (okEnv 1048576 4096 [] [] 0) [.e, .a 4096, .l 8192]).trace
        = [.flash_erase 4096 8192]) ∧
    (¬ ((4096 : Int) ∣ 5000) →
      transportCalls (main (okEnv 1048576 4096 [] [] 0) [.e, .l 5000]).trace = []) :=
  ⟨(erase_iff_block_aligned.1 (okEnv 1048576 4096 [] [] 0) [.e, .a 4096, .l 8192]
      { initVars (okEnv 1048576 4096 [] [] 0) with op := 'e', addr := 4096, len := 8192 }
      (by decide) rfl (by decide) (by decide) (by decide) (by decide)).2,
    (erase_iff_block_aligned.1 (okEnv 1048576 4096 [] [] 0) [.e, .l 5000]
      { initVars (okEnv 1048576 4096 [] [] 0) with op := 'e', len := 5000 }
      (by decide) rfl (by decide) (by decide) (by decide) (by decide)).1⟩

/-- C8: at the entry of the erase step and of the read/write step, with the chip length `flen`
and the address inside the `long long` range (`0 ≤ flen < 2^63`, `addr < 2^63`): an unspecified
length (0) is resolved to `flen - addr` when `addr > 0` and to `flen` when `addr = 0`; a non-zero
length is left as supplied; the resolution does not change `addr`. Moreover every
`flash_erase`, `flash_write` and `flash_read` call of every run of `main` carries the address
the options gave. -/
theorem range_resolution_defaults :
    (∀ s : Vars, 0 ≤ s.flen → s.flen < 2 ^ 63 → s.addr < 2 ^ 63 →
      (s.len = 0 → 0 < s.addr →
        (eraseResolve s).len = s.flen - s.addr ∧ (rwResolve s).len = s.flen - s.addr) ∧
      (s.len = 0 → s.addr = 0 → (eraseResolve s).len = s.flen ∧ (rwResolve s).len = s.flen) ∧
      (s.len ≠ 0 → (eraseResolve s).len = s.len ∧ (rwResolve s).len = s.len) ∧
      (eraseResolve s).addr = s.addr ∧ (rwResolve s).addr = s.addr) ∧
    (∀ (env : Env) (flags : List Flag) (s : Vars),
      getoptLoop (initVars env) flags = .done s →
      callsAll (fun a _ => a = s.addr) (main env flags).trace) := by
  constructor
  · intro s hT0 hT ha
    refine ⟨?_, ?_, ?_, eraseResolve_addr s, rwResolve_addr s⟩
    · intro hl hpos
      have hne : s.addr ≠ 0 := by omega
      have hw : wrap64 (s.flen - s.addr) = s.flen - s.addr := by
        apply wrap64_small <;> omega
      simp [eraseResolve, rwResolve, hl, hne, hw]
    · intro hl h0
      simp [eraseResolve, rwResolve, hl, h0]
    · intro hl
      simp [eraseResolve, rwResolve, hl]
  · intro env flags s hs
    exact callsAll_main _ env flags s hs (fun _ => rfl) (fun _ => rfl) (fun _ _ _ _ => rfl)

theorem range_resolution_defaults_witness :
    ((eraseResolve { initVars (okEnv 1048576 4096 [] [] 0) with
        addr := 4096, flen := 1048576 }).len = 1048576 - 4096 ∧
      (rwResolve { initVars (okEnv 1048576 4096 [] [] 0) with
        addr := 4096, flen := 1048576 }).len = 1048576 - 4096) ∧
    callsAll (fun a _ => a = 4096)
      (main (okEnv 1048576 4096 [] [] 0) [.a 4096, .r "f"]).trace :=
  ⟨(range_resolution_defaults.1 { initVars (okEnv 1048576 4096 [] [] 0) with
      addr := 4096, flen := 1048576 } (by decide) (by decide) (by decide)).1 rfl (by decide),
    range_resolution_defaults.2 (okEnv 1048576 4096 [] [] 0) [.a 4096, .r "f"]
      { initVars (okEnv 1048576 4096 [] [] 0) with addr := 4096, op := 'r', fname := some "f" }
      (by decide)⟩

/-! ## Range validity: claim C3 -/

theorem fread_le (file : List Byte) (len : Int) (h0 : 0 ≤ len) (h1 : len < 2 ^ 63) :
    ((fread file len : Nat) : Int) ≤ len := by
  have h : toSizeT len = len.toNat := by
    simp only [toSizeT]
    congr 1
    omega
  have h2 : fread file len ≤ len.toNat := by
    simp only [fread, h]
    exact Nat.min_le_left _ _
  omega

/-- C3 (the claim as stated fails): `-r f -l 2097152` on a chip of 1048576 bytes calls
`flash_read(0, 2097152)`, and `0 + 2097152` exceeds the chip length. -/
theorem range_not_validated :
    Event.flash_read 0 2097152 ∈
        (main (okEnv 1048576 4096 [] [] 0) [.r "f", .l 2097152]).trace ∧
      ¬ ((0 : Int) + 2097152 ≤ 1048576) := by
  decide

/-- C3 (amended): `main` does not check the range; what it passes on is in range exactly as far
as the options are. In a run on a chip of length `T < 2^63`, every `flash_erase`, `flash_write`
and `flash_read` call is made with `0 ≤ address`, `0 ≤ length` and
`address + length ≤ T`, provided the address given by the options satisfies `0 ≤ address` and
either the length was left unspecified (0) and `address ≤ T`, or the length given is positive
and `address + length ≤ T`. -/
theorem range_valid_when_options_in_chip (env : Env) (flags : List Flag) (s : Vars)
    (hs : getoptLoop (initVars env) flags = .done s) (hT : env.flash_cmd_init < 2 ^ 63)
    (ha0 : 0 ≤ s.addr)
    (h : (s.len = 0 ∧ s.addr ≤ env.flash_cmd_init) ∨
      (0 < s.len ∧ s.addr + s.len ≤ env.flash_cmd_init)) :
    callsAll (fun a l => 0 ≤ a ∧ 0 ≤ l ∧ a + l ≤ env.flash_cmd_init)
      (main env flags).trace := by
  have hres : 0 < env.flash_cmd_init →
      (0 ≤ (rwResolve { s with flen := env.flash_cmd_init }).len ∧
        s.addr + (rwResolve { s with flen := env.flash_cmd_init }).len
          ≤ env.flash_cmd_init) ∧
      (0 ≤ (eraseResolve { s with flen := env.flash_cmd_init }).len ∧
        s.addr + (eraseResolve { s with flen := env.flash_cmd_init }).len
          ≤ env.flash_cmd_init) ∧
      ((rwResolve { s with flen := env.flash_cmd_init }).len = env.flash_cmd_init →
        s.addr = 0) := by
    intro hpos
    rcases h with ⟨hl, haT⟩ | ⟨hl, hsum⟩
    · by_cases ha : s.addr = 0
      · simp [eraseResolve, rwResolve, hl, ha]
        omega
      · have hw : wrap64 (env.flash_cmd_init - s.addr) = env.flash_cmd_init - s.addr := by
          apply wrap64_small <;> omega
        simp [eraseResolve, rwResolve, hl, ha, hw]
        omega
    · have hl0 : s.len ≠ 0 := by omega
      simp only [eraseResolve, rwResolve, hl0, and_false, if_false]
      refine ⟨⟨by omega, hsum⟩, ⟨by omega, hsum⟩, ?_⟩
      intro hlen
      omega
  apply callsAll_main _ env flags s hs
  · intro hpos
    exact ⟨ha0, (hres hpos).2.1⟩
  · intro hpos
    exact ⟨ha0, (hres hpos).1⟩
  · intro hpos file _ hlen
    have hle := fread_le file env.flash_cmd_init (by omega) hT
    have ha := (hres hpos).2.2 hlen
    rw [hlen]
    refine ⟨ha0, ?_, ?_⟩ <;> omega

theorem range_valid_when_options_in_chip_witness :
    callsAll (fun a l => 0 ≤ a ∧ 0 ≤ l ∧ a + l ≤ 1048576)
      (main (okEnv 1048576 4096 [1, 2] [] 2) [.a 4096, .w "f", .v]).trace :=
  range_valid_when_options_in_chip (okEnv 1048576 4096 [1, 2] [] 2) [.a 4096, .w "f", .v]
    { initVars (okEnv 1048576 4096 [1, 2] [] 2) with
      addr := 4096, op := 'w', fname := some "f", vr := 1 }
    (by decide) (by decide) (by decide) (Or.inl ⟨rfl, by decide⟩)

/-! ## The write step: claims C4, C5, C6 -/

theorem transportCalls_verifyExec (env : Env) (s : Vars) (fp : Option (List Byte)) :
    transportCalls (verifyExec env s fp).trace = [] := by
  unfold verifyExec
  cases fp with
  | none => simp [transportCalls]
  | some file =>
    dsimp only
    cases verifyCompare file env.readBack s.len with
    | none => simp [transportCalls]
    | some b => cases b <;> simp [transportCalls, Run.pre, out]

theorem readExec_calls (env : Env) (s : Vars) (fp : Option (List Byte)) :
    transportCalls (readExec env s fp).trace =
      if s.op = 'r' then [.flash_read s.addr s.len] else [] := by
  unfold readExec
  by_cases hop : s.op = 'r'
  · rw [if_pos hop, if_pos hop, transportCalls_pre]
    dsimp only
    have h1 : transportCalls ((if s.svr = 0 then [Event.print Msg.readHdr] else []) ++
        [.print (.readRange s.addr s.len), .flash_read s.addr s.len])
        = [.flash_read s.addr s.len] := by
      by_cases h0 : s.svr = 0 <;> simp [transportCalls, h0]
    rw [h1]
    split_ifs <;>
      simp [transportCalls_pre, transportCalls_out, transportCalls_verifyExec] <;>
      simp [transportCalls]
  · rw [if_neg hop, if_neg hop]
    exact transportCalls_out

/-- The transport calls of the write step once the source file is open and read without
error: one `flash_write`, followed by one `flash_read` with the same address and length exactly
when `flash_write` returned a positive value and `vr` is set. -/
theorem writeExec_calls (env : Env) (s : Vars) (file : List Byte) (hop : s.op = 'w')
    (hsrc : env.source = some file) (hferr : env.ferror = false) :
    transportCalls (writeExec env s).trace =
      .flash_write (file.take (fread file s.len)) s.addr
          (narrow { s with wlen := (fread file s.len : Nat) }).len ::
        (if 0 < env.flash_write ∧ s.vr ≠ 0 then
          [.flash_read s.addr (narrow { s with wlen := (fread file s.len : Nat) }).len]
        else []) := by
  have hnr : ¬ s.op = 'r' := by rw [hop]; decide
  unfold writeExec
  rw [if_pos hop]
  simp only [hsrc, hferr]
  by_cases hlen : s.len = s.flen
  · have hnar : narrow { s with wlen := (fread file s.len : Nat) }
        = { s with wlen := (fread file s.len : Nat), len := (fread file s.len : Nat) } := by
      simp [narrow, hlen]
    rw [hnar]
    by_cases hret : 0 < env.flash_write <;> by_cases hvr : s.vr = 0 <;>
      simp [transportCalls_pre, readExec_calls, hret, hvr, hnr] <;>
      simp [transportCalls]
  · have hnar : narrow { s with wlen := (fread file s.len : Nat) }
        = { s with wlen := (fread file s.len : Nat) } := by
      simp [narrow, hlen]
    rw [hnar]
    by_cases hret : 0 < env.flash_write <;> by_cases hvr : s.vr = 0 <;>
      simp [transportCalls_pre, readExec_calls, hret, hvr, hnr] <;>
      simp [transportCalls]

theorem rwResolve_vr (s : Vars) : (rwResolve s).vr = s.vr := by
  simp only [rwResolve]
  split_ifs <;> rfl

theorem writeCalls_transportCalls (tr : List Event) :
    writeCalls (transportCalls tr) = writeCalls tr := by
  induction tr with
  | nil => rfl
  | cons ev tr ih =>
    cases ev <;> simp_all [writeCalls, transportCalls, List.filter_cons, List.filterMap_cons]

theorem mem_pre_right (ev : Event) (es : List Event) (r : Run) (h : ev ∈ r.trace) :
    ev ∈ (Run.pre es r).trace := by
  simp [Run.pre, h]

/-- The run of `main` up to the write step: with `op = 'w'`, no conflict, the programmer and chip
found and the buffer allocated, `main` continues as the write step on the resolved range. -/
theorem main_write (env : Env) (flags : List Flag) (s : Vars)
    (hs : getoptLoop (initVars env) flags = .done s) (hop : s.op = 'w')
    (hign : s.ECC_ignore = 0) (hspi : 0 ≤ env.ch341a_spi_init)
    (hflen : 0 < env.flash_cmd_init) (hmalloc : env.malloc = true) :
    main env flags = Run.pre [.print .title] (Run.pre [.ch341a_spi_init, .flash_cmd_init]
      (writeExec env (rwResolve { s with flen := env.flash_cmd_init }))) := by
  rw [main_of_done env flags s hs, afterOptions_write env s hop hign hspi hflen]
  unfold rwExec
  rw [if_pos (Or.inr hop)]
  simp [hmalloc]

/-- The transport calls of a run of `main` that reaches `flash_write`. -/
theorem main_write_calls (env : Env) (flags : List Flag) (s : Vars) (file : List Byte)
    (hs : getoptLoop (initVars env) flags = .done s) (hop : s.op = 'w')
    (hign : s.ECC_ignore = 0) (hspi : 0 ≤ env.ch341a_spi_init)
    (hflen : 0 < env.flash_cmd_init) (hmalloc : env.malloc = true)
    (hsrc : env.source = some file) (hferr : env.ferror = false) :
    ∃ data,
      transportCalls (main env flags).trace =
        .flash_write data s.addr (writeLen env.flash_cmd_init s file) ::
          (if 0 < env.flash_write ∧ s.vr ≠ 0 then
            [.flash_read s.addr (writeLen env.flash_cmd_init s file)]
          else []) := by
  refine ⟨file.take (fread file (rwResolve { s with flen := env.flash_cmd_init }).len), ?_⟩
  have hw := writeExec_calls env (rwResolve { s with flen := env.flash_cmd_init }) file
    (by rw [rwResolve_op]; exact hop) hsrc hferr
  have hL : (narrow { rwResolve { s with flen := env.flash_cmd_init } with
      wlen := (fread file (rwResolve { s with flen := env.flash_cmd_init }).len : Nat) }).len
      = writeLen env.flash_cmd_init s file := rfl
  rw [hL, rwResolve_addr, rwResolve_vr] at hw
  rw [main_write env flags s hs hop hign hspi hflen hmalloc, transportCalls_pre,
    transportCalls_pre, hw]
  simp [transportCalls]

/-- The length passed to `flash_write`, by cases on the length the options gave. -/
theorem writeLen_cases (s : Vars) (T : Int) (file : List Byte) :
    (s.len ≠ 0 → s.len ≠ T → writeLen T s file = s.len) ∧
    (s.len ≠ 0 → s.len = T → writeLen T s file = (fread file s.len : Nat)) ∧
    (s.len = 0 → s.addr = 0 → writeLen T s file = (fread file T : Nat)) := by
  refine ⟨?_, ?_, ?_⟩
  · intro h0 hT
    simp [writeLen, rwResolve, narrow, h0, hT]
  · intro h0 hT
    subst hT
    simp [writeLen, rwResolve, narrow, h0]
  · intro h0 ha
    simp [writeLen, rwResolve, narrow, h0, ha]

theorem writeCalls_main_write (env : Env) (flags : List Flag) (s : Vars) (file : List Byte)
    (hs : getoptLoop (initVars env) flags = .done s) (hop : s.op = 'w')
    (hign : s.ECC_ignore = 0) (hspi : 0 ≤ env.ch341a_spi_init)
    (hflen : 0 < env.flash_cmd_init) (hmalloc : env.malloc = true)
    (hsrc : env.source = some file) (hferr : env.ferror = false) :
    writeCalls (main env flags).trace = [(s.addr, writeLen env.flash_cmd_init s file)] := by
  obtain ⟨data, h⟩ := main_write_calls env flags s file hs hop hign hspi hflen hmalloc hsrc hferr
  rw [← writeCalls_transportCalls, h]
  split_ifs <;> simp [writeCalls]

/-- C4 (the claim as stated fails): `-w f -l 1048576` on a chip of 1048576 bytes with a source
file of 3 bytes supplies the non-zero length 1048576, and `flash_write` is called with length
3. -/
theorem explicit_full_length_narrowed :
    writeCalls (main (okEnv 1048576 4096 [1, 2, 3] [] 3) [.w "f", .l 1048576]).trace
      = [(0, 3)] := by
  decide

/-- C4 (amended): in a run that reaches `flash_write` with a non-zero length `L` supplied by the
user, `flash_write` is called once, with the address given and with length exactly `L` when `L`
differs from the chip length; when `L` equals the chip length the length passed is the count
`fread` returned. -/
theorem explicit_length_used_unless_full (env : Env) (flags : List Flag) (s : Vars)
    (file : List Byte) (hs : getoptLoop (initVars env) flags = .done s) (hop : s.op = 'w')
    (hign : s.ECC_ignore = 0) (hspi : 0 ≤ env.ch341a_spi_init)
    (hflen : 0 < env.flash_cmd_init) (hmalloc : env.malloc = true)
    (hsrc : env.source = some file) (hferr : env.ferror = false) (hL : s.len ≠ 0) :
    (s.len ≠ env.flash_cmd_init → writeCalls (main env flags).trace = [(s.addr, s.len)]) ∧
    (s.len = env.flash_cmd_init →
      writeCalls (main env flags).trace = [(s.addr, ((fread file s.len : Nat) : Int))]) := by
  have h := writeCalls_main_write env flags s file hs hop hign hspi hflen hmalloc hsrc hferr
  have hc := writeLen_cases s env.flash_cmd_init file
  constructor
  · intro hne
    rw [h, hc.1 hL hne]
  · intro he
    rw [h, hc.2.1 hL he]

theorem explicit_length_used_unless_full_witness :
    writeCalls (main (okEnv 1048576 4096 [1, 2, 3] [] 2) [.w "f", .l 2]).trace = [(0, 2)] :=
  (explicit_length_used_unless_full (okEnv 1048576 4096 [1, 2, 3] [] 2) [.w "f", .l 2]
    { initVars (okEnv 1048576 4096 [1, 2, 3] [] 2) with op := 'w', fname := some "f", len := 2 }
    [1, 2, 3] (by decide) rfl rfl (by decide) (by decide) rfl rfl rfl (by decide)).1
    (by decide)

theorem fread_short (file : List Byte) (T : Int) (hT : T < 2 ^ 63)
    (hn : (file.length : Int) < T) : fread file T = file.length := by
  have h : toSizeT T = T.toNat := by
    simp only [toSizeT]
    congr 1
    omega
  simp only [fread, h]
  omega

/-- C5: in a run that reaches `flash_write` with address 0 and length unspecified (0) on a chip
of length `T < 2^63`, with a source file of `n < T` bytes, `flash_write` is called once, with
address 0 and length `n`, and no `flash_write` call has length `T`. A 100-byte file on a chip
of 1048576 bytes gives length 100. -/
theorem implicit_write_narrowed :
    (∀ (env : Env) (flags : List Flag) (s : Vars) (file : List Byte),
      getoptLoop (initVars env) flags = .done s → s.op = 'w' → s.ECC_ignore = 0 →
      0 ≤ env.ch341a_spi_init → 0 < env.flash_cmd_init → env.flash_cmd_init < 2 ^ 63 →
      env.malloc = true → env.source = some file → env.ferror = false →
      s.addr = 0 → s.len = 0 → (file.length : Int) < env.flash_cmd_init →
      writeCalls (main env flags).trace = [(0, (file.length : Int))] ∧
      ∀ a, (a, env.flash_cmd_init) ∉ writeCalls (main env flags).trace) ∧
    writeCalls (main (okEnv 1048576 4096 (List.replicate 100 0) [] 100) [.w "f"]).trace
      = [(0, 100)] := by
  have hgen : ∀ (env : Env) (flags : List Flag) (s : Vars) (file : List Byte),
      getoptLoop (initVars env) flags = .done s → s.op = 'w' → s.ECC_ignore = 0 →
      0 ≤ env.ch341a_spi_init → 0 < env.flash_cmd_init → env.flash_cmd_init < 2 ^ 63 →
      env.malloc = true → env.source = some file → env.ferror = false →
      s.addr = 0 → s.len = 0 → (file.length : Int) < env.flash_cmd_init →
      writeCalls (main env flags).trace = [(0, (file.length : Int))] ∧
      ∀ a, (a, env.flash_cmd_init) ∉ writeCalls (main env flags).trace := by
    intro env flags s file hs hop hign hspi hflen hT hmalloc hsrc hferr ha hl hn
    have h := writeCalls_main_write env flags s file hs hop hign hspi hflen hmalloc hsrc hferr
    rw [(writeLen_cases s env.flash_cmd_init file).2.2 hl ha, fread_short file _ hT hn, ha] at h
    refine ⟨h, ?_⟩
    intro a hmem
    rw [h] at hmem
    simp only [List.mem_singleton, Prod.mk.injEq] at hmem
    omega
  refine ⟨hgen, ?_⟩
  have h := (hgen (okEnv 1048576 4096 (List.replicate 100 0) [] 100) [.w "f"]
    { initVars (okEnv 1048576 4096 (List.replicate 100 0) [] 100) with
      op := 'w', fname := some "f" }
    (List.replicate 100 0) (by decide) rfl rfl (by decide) (by decide) (by decide) rfl rfl rfl
    rfl rfl (by simp [okEnv])).1
  simpa using h

theorem implicit_write_narrowed_witness :
    writeCalls (main (okEnv 1048576 4096 [1, 2, 3] [] 3) [.w "f"]).trace
      = [(0, (([1, 2, 3] : List Byte).length : Int))] :=
  (implicit_write_narrowed.1 (okEnv 1048576 4096 [1, 2, 3] [] 3) [.w "f"]
    { initVars (okEnv 1048576 4096 [1, 2, 3] [] 3) with op := 'w', fname := some "f" }
    [1, 2, 3] (by decide) rfl rfl (by decide) (by decide) (by decide) rfl rfl rfl rfl rfl
    (by decide)).1

/-- The status line after `flash_write`: "Status: 成功" for a positive return value,
"Status: 错误(ret)" otherwise. -/
theorem writeExec_status (env : Env) (s : Vars) (file : List Byte) (hop : s.op = 'w')
    (hsrc : env.source = some file) (hferr : env.ferror = false) :
    (0 < env.flash_write → Event.print .statusOk ∈ (writeExec env s).trace) ∧
    (env.flash_write ≤ 0 →
      Event.print (.statusErr env.flash_write) ∈ (writeExec env s).trace) := by
  unfold writeExec
  rw [if_pos hop]
  simp only [hsrc, hferr]
  constructor
  · intro hret
    simp [Run.pre, hret]
  · intro hret
    simp [Run.pre, not_lt.mpr hret]

/-- C6 (the claim as stated fails): `-w f -v` with an empty source file, `flash_write` returning
the non-negative count 0: the write is reported as an error, "Status: 错误(0)", and no
`flash_read` follows. -/
theorem zero_count_not_success :
    transportCalls (main (okEnv 1048576 4096 [] [] 0) [.w "f", .v]).trace
        = [.flash_write [] 0 0] ∧
      Event.print (.statusErr 0) ∈ (main (okEnv 1048576 4096 [] [] 0) [.w "f", .v]).trace := by
  decide

/-- C6 (amended): in a run that reaches `flash_write` with verification requested (`-v`): when
`flash_write` returns a positive count, `main` prints "Status: 成功" and then calls `flash_read`
with the address and the length it passed to `flash_write`; when `flash_write` returns zero or a
negative value, `main` prints "Status: 错误(ret)" and calls no `flash_read`. -/
theorem write_success_hands_off (env : Env) (flags : List Flag) (s : Vars)
    (file : List Byte) (hs : getoptLoop (initVars env) flags = .done s) (hop : s.op = 'w')
    (hign : s.ECC_ignore = 0) (hspi : 0 ≤ env.ch341a_spi_init)
    (hflen : 0 < env.flash_cmd_init) (hmalloc : env.malloc = true)
    (hsrc : env.source = some file) (hferr : env.ferror = false) (hvr : s.vr ≠ 0) :
    (0 < env.flash_write →
      Event.print .statusOk ∈ (main env flags).trace ∧
      ∃ data l, transportCalls (main env flags).trace
        = [.flash_write data s.addr l, .flash_read s.addr l]) ∧
    (env.flash_write ≤ 0 →
      Event.print (.statusErr env.flash_write) ∈ (main env flags).trace ∧
      ∃ data l, transportCalls (main env flags).trace = [.flash_write data s.addr l]) := by
  obtain ⟨data, h⟩ := main_write_calls env flags s file hs hop hign hspi hflen hmalloc hsrc hferr
  have hst := writeExec_status env (rwResolve { s with flen := env.flash_cmd_init }) file
    (by rw [rwResolve_op]; exact hop) hsrc hferr
  have hm := main_write env flags s hs hop hign hspi hflen hmalloc
  constructor
  · intro hret
    refine ⟨?_, data, writeLen env.flash_cmd_init s file, ?_⟩
    · rw [hm]
      exact mem_pre_right _ _ _ (mem_pre_right _ _ _ (hst.1 hret))
    · rw [h, if_pos ⟨hret, hvr⟩]
  · intro hret
    refine ⟨?_, data, writeLen env.flash_cmd_init s file, ?_⟩
    · rw [hm]
      exact mem_pre_right _ _ _ (mem_pre_right _ _ _ (hst.2 hret))
    · rw [h, if_neg (fun hc => absurd hc.1 (not_lt.mpr hret))]

theorem write_success_hands_off_witness :
    Event.print .statusOk ∈
        (main (okEnv 1048576 4096 [1, 2, 3] [1, 2, 3, 0] 3) [.w "f", .v]).trace ∧
      ∃ data l, transportCalls (main (okEnv 1048576 4096 [1, 2, 3] [1, 2, 3, 0] 3)
        [.w "f", .v]).trace = [.flash_write data 0 l, .flash_read 0 l] :=
  (write_success_hands_off (okEnv 1048576 4096 [1, 2, 3] [1, 2, 3, 0] 3) [.w "f", .v]
    { initVars (okEnv 1048576 4096 [1, 2, 3] [1, 2, 3, 0] 3) with
      op := 'w', fname := some "f", vr := 1 }
    [1, 2, 3] (by decide) rfl rfl (by decide) (by decide) rfl rfl rfl (by decide)).1
    (by decide)

/-! ## The option loop: claim C9 -/

theorem optStep_op_x (s : Vars) (f : Flag) (s1 : Vars) (hx : s.op = 'x')
    (h : optStep s f = .done s1) : s1.op = 'x' := by
  have hn : s.op ≠ NUL := by rw [hx]; decide
  cases f <;> simp [optStep, hn] at h <;> subst h <;> first | exact hx | rfl

theorem optStep_ignore (s : Vars) (f : Flag) (s1 : Vars) (hi : s.ECC_ignore = 1)
    (h : optStep s f = .done s1) : s1.ECC_ignore = 1 := by
  cases f <;> simp [optStep] at h <;> subst h <;> first | exact hi | rfl | (split_ifs <;> exact hi)

theorem optStep_fcheck (s : Vars) (f : Flag) (s1 : Vars) (hi : s.ECC_fcheck = 0)
    (h : optStep s f = .done s1) : s1.ECC_fcheck = 0 := by
  cases f <;> simp [optStep] at h <;> subst h <;> first | exact hi | rfl | (split_ifs <;> exact hi)

theorem optStep_op_wx (s : Vars) (f : Flag) (s1 : Vars) (hw : s.op = 'w' ∨ s.op = 'x')
    (h : optStep s f = .done s1) : s1.op = 'w' ∨ s1.op = 'x' := by
  have hn : s.op ≠ NUL := by
    rcases hw with hw | hw <;> rw [hw] <;> decide
  cases f <;> simp [optStep, hn] at h <;> subst h <;> first | exact hw | exact Or.inr rfl

theorem optStep_primary (s : Vars) (f : Flag) (s1 : Vars) (hp : f.isPrimary = true)
    (h : optStep s f = .done s1) : s1.op ≠ NUL ∧ (s.op ≠ NUL → s1.op = 'x') := by
  cases f <;> simp [Flag.isPrimary] at hp <;> simp [optStep] at h <;> subst h <;>
    by_cases hn : s.op = NUL <;> simp [hn] <;> decide

theorem optStep_not_primary (s : Vars) (f : Flag) (s1 : Vars) (hp : f.isPrimary = false)
    (h : optStep s f = .done s1) : s1.op = s.op := by
  cases f <;> simp [Flag.isPrimary] at hp <;> simp [optStep] at h <;> subst h <;> rfl

/-- A property of the variables that every pass through the switch preserves holds when the
loop ends if it held when the loop began. -/
theorem getoptLoop_preserves (Inv : Vars → Prop)
    (hstep : ∀ s f s1, Inv s → optStep s f = .done s1 → Inv s1) :
    ∀ (flags : List Flag) (s s1 : Vars), Inv s → getoptLoop s flags = .done s1 → Inv s1 := by
  intro flags
  induction flags with
  | nil =>
    intro s s1 hi h
    simp only [getoptLoop, Parse.done.injEq] at h
    subst h
    exact hi
  | cons f fs ih =>
    intro s s1 hi h
    simp only [getoptLoop] at h
    cases hf : optStep s f with
    | done s2 =>
      rw [hf] at h
      exact ih s2 s1 (hstep s f s2 hi hf) h
    | exit tr =>
      rw [hf] at h
      cases h

/-- What holds right after the pass for an option `f` of the sequence, and is preserved by every
later pass, holds when the loop ends. -/
theorem getoptLoop_after (Inv : Vars → Prop) (f : Flag)
    (hset : ∀ s s1, optStep s f = .done s1 → Inv s1)
    (hstep : ∀ s g s1, Inv s → optStep s g = .done s1 → Inv s1) :
    ∀ (flags : List Flag) (s s1 : Vars), f ∈ flags → getoptLoop s flags = .done s1 → Inv s1 := by
  intro flags
  induction flags with
  | nil =>
    intro s s1 hm
    cases hm
  | cons g gs ih =>
    intro s s1 hm h
    simp only [getoptLoop] at h
    cases hg : optStep s g with
    | done s2 =>
      rw [hg] at h
      rcases List.mem_cons.mp hm with rfl | hm1
      · exact getoptLoop_preserves Inv hstep gs s2 s1 (hset s s2 hg) h
      · exact ih s2 s1 hm1 h
    | exit tr =>
      rw [hg] at h
      cases h

theorem getoptLoop_nonNUL_primary :
    ∀ (flags : List Flag) (s s1 : Vars), s.op ≠ NUL →
      1 ≤ (flags.filter Flag.isPrimary).length → getoptLoop s flags = .done s1 →
      s1.op = 'x' := by
  intro flags
  induction flags with
  | nil =>
    intro s s1 _ hc
    simp at hc
  | cons f fs ih =>
    intro s s1 hn hc h
    simp only [getoptLoop] at h
    cases hf : optStep s f with
    | done s2 =>
      rw [hf] at h
      cases hp : f.isPrimary with
      | true =>
        have hx := (optStep_primary s f s2 hp hf).2 hn
        exact getoptLoop_preserves (fun v => v.op = 'x') optStep_op_x fs s2 s1 hx h
      | false =>
        have hop := optStep_not_primary s f s2 hp hf
        rw [List.filter_cons, hp] at hc
        exact ih s2 s1 (by rw [hop]; exact hn) (by simpa using hc) h
    | exit tr =>
      rw [hf] at h
      cases h

theorem getoptLoop_two_primary :
    ∀ (flags : List Flag) (s s1 : Vars),
      2 ≤ (flags.filter Flag.isPrimary).length → getoptLoop s flags = .done s1 →
      s1.op = 'x' := by
  intro flags
  induction flags with
  | nil =>
    intro s s1 hc
    simp at hc
  | cons f fs ih =>
    intro s s1 hc h
    simp only [getoptLoop] at h
    cases hf : optStep s f with
    | done s2 =>
      rw [hf] at h
      cases hp : f.isPrimary with
      | true =>
        rw [List.filter_cons, hp] at hc
        have hn := (optStep_primary s f s2 hp hf).1
        exact getoptLoop_nonNUL_primary fs s2 s1 hn (by simpa using hc) h
      | false =>
        rw [List.filter_cons, hp] at hc
        exact ih s2 s1 (by simpa using hc) h
    | exit tr =>
      rw [hf] at h
      cases h

theorem getoptLoop_total :
    ∀ (flags : List Flag) (s : Vars), (∀ f ∈ flags, f.exits = false) →
      ∃ s1, getoptLoop s flags = .done s1 := by
  intro flags
  induction flags with
  | nil =>
    intro s _
    exact ⟨s, rfl⟩
  | cons f fs ih =>
    intro s hne
    have hf : f.exits = false := hne f (List.mem_cons_self f fs)
    have hfs : ∀ g ∈ fs, g.exits = false := fun g hg => hne g (List.mem_cons_of_mem f hg)
    cases f <;> simp [Flag.exits] at hf <;> simp only [getoptLoop, optStep] <;> exact ih _ hfs

theorem getoptLoop_exit_calls :
    ∀ (flags : List Flag) (s : Vars) (tr : List Event), getoptLoop s flags = .exit tr →
      deviceCalls tr = [] := by
  intro flags
  induction flags with
  | nil =>
    intro s tr h
    cases h
  | cons f fs ih =>
    intro s tr h
    simp only [getoptLoop] at h
    cases hf : optStep s f with
    | done s2 =>
      rw [hf] at h
      exact ih s2 tr h
    | exit t =>
      rw [hf] at h
      simp only [Parse.exit.injEq] at h
      subst h
      cases f <;> simp [optStep] at hf <;> subst hf <;> rfl

/-- A conflicting sequence of options leaves the variables in a state the test at line 187
rejects, whenever the loop runs to its end. -/
theorem getoptLoop_conflict (flags : List Flag) (s s1 : Vars) (hc : Conflicting flags)
    (h : getoptLoop s flags = .done s1) : conflictState s1 := by
  have hI : Flag.I ∈ flags → s1.ECC_ignore = 1 := fun hm =>
    getoptLoop_after (fun v => v.ECC_ignore = 1) Flag.I
      (fun s s1 h => by simp [optStep] at h; subst h; rfl) optStep_ignore flags s s1 hm h
  rcases hc with h2 | ⟨hi, hw⟩ | ⟨hi, hd⟩
  · exact Or.inl (getoptLoop_two_primary flags s s1 h2 h)
  · obtain ⟨f, hf, hfw⟩ := List.any_eq_true.mp hw
    have hwx : s1.op = 'w' ∨ s1.op = 'x' :=
      getoptLoop_after (fun v => v.op = 'w' ∨ v.op = 'x') f
        (fun s s1 h => by
          cases f <;> simp [Flag.isWrite] at hfw
          by_cases hn : s.op = NUL <;> simp [optStep, hn] at h <;> subst h <;> simp)
        optStep_op_wx flags s s1 hf h
    rcases hwx with hw1 | hx
    · exact Or.inr (Or.inr ⟨hw1, by rw [hI hi]; decide⟩)
    · exact Or.inl hx
  · have hfc : s1.ECC_fcheck = 0 :=
      getoptLoop_after (fun v => v.ECC_fcheck = 0) Flag.d
        (fun s s1 h => by simp [optStep] at h; subst h; rfl) optStep_fcheck flags s s1 hd h
    exact Or.inr (Or.inl ⟨by rw [hI hi]; decide, hfc⟩)

/-- C9 (the claim as stated fails): the sequence `-h -i -e` holds two primary-operation options,
but the handler of `-h` calls `usage()`, which exits with status 0 before `-i` and `-e` are
seen: the loop never reaches a conflict state and `main` does not return. -/
theorem help_preempts_conflict :
    Conflicting [.h, .i, .e] ∧
      getoptLoop (initVars (okEnv 1048576 4096 [] [] 0)) [.h, .i, .e] = .exit [.print .usage] ∧
      main (okEnv 1048576 4096 [] [] 0) [.h, .i, .e]
        = ⟨[.print .title, .print .usage], .exited 0⟩ := by
  refine ⟨Or.inl (by decide), by decide, by decide⟩

/-- C9 (amended): for every sequence of options with two or more primary-operation options, or
`-I` with `-w`, or `-I` with `-d`, `main` calls none of `ch341a_spi_init`, `flash_cmd_init`,
`flash_erase`, `flash_write`, `flash_read`. When no option of the sequence is `-h`, `-L` or
unrecognised, the option loop ends in a state with
`op == 'x' || (ECC_ignore && !ECC_fcheck) || (op == 'w' && ECC_ignore)`; `main` then prints the
conflict message and returns -1 if some primary operation was chosen, and exits through
`usage()` if none was. Once `op` is `'x'`, no pass through the switch changes it. -/
theorem conflicts_rejected_before_device_calls :
    (∀ (env : Env) (flags : List Flag), Conflicting flags →
      deviceCalls (main env flags).trace = [] ∧
      ((∀ f ∈ flags, f.exits = false) →
        ∃ s, getoptLoop (initVars env) flags = .done s ∧ conflictState s ∧
          (s.op ≠ NUL →
            main env flags = ⟨[.print .title, .print .conflict], .returned (-1)⟩) ∧
          (s.op = NUL → main env flags = ⟨[.print .title, .print .usage], .exited 0⟩))) ∧
    (∀ (s : Vars) (f : Flag) (s1 : Vars), s.op = 'x' → optStep s f = .done s1 →
      s1.op = 'x') := by
  refine ⟨?_, optStep_op_x⟩
  intro env flags hc
  have hdone : ∀ s, getoptLoop (initVars env) flags = .done s →
      conflictState s ∧
      (s.op ≠ NUL → main env flags = ⟨[.print .title, .print .conflict], .returned (-1)⟩) ∧
      (s.op = NUL → main env flags = ⟨[.print .title, .print .usage], .exited 0⟩) := by
    intro s hs
    have hcs := getoptLoop_conflict flags (initVars env) s hc hs
    refine ⟨hcs, ?_, ?_⟩
    · intro hn
      rw [main_of_done env flags s hs]
      unfold afterOptions
      have hcs1 : s.op = 'x' ∨ (s.ECC_ignore ≠ 0 ∧ s.ECC_fcheck = 0)
          ∨ (s.op = 'w' ∧ s.ECC_ignore ≠ 0) := hcs
      rw [if_neg hn, if_pos hcs1]
      rfl
    · intro hn
      rw [main_of_done env flags s hs]
      unfold afterOptions
      rw [if_pos hn]
      rfl
  constructor
  · cases hp : getoptLoop (initVars env) flags with
    | done s =>
      obtain ⟨_, h1, h2⟩ := hdone s hp
      by_cases hn : s.op = NUL
      · rw [h2 hn]
        rfl
      · rw [h1 hn]
        rfl
    | exit tr =>
      have htr := getoptLoop_exit_calls flags (initVars env) tr hp
      simp only [main, hp, Run.pre]
      simpa [deviceCalls] using htr
  · intro hne
    obtain ⟨s, hs⟩ := getoptLoop_total flags (initVars env) hne
    exact ⟨s, hs, hdone s hs⟩

theorem conflicts_rejected_before_device_calls_witness :
    deviceCalls (main (okEnv 1048576 4096 [] [] 0) [.e, .w "f"]).trace = [] ∧
      ∃ s, getoptLoop (initVars (okEnv 1048576 4096 [] [] 0)) [.e, .w "f"] = .done s ∧
        conflictState s ∧
        (s.op ≠ NUL → main (okEnv 1048576 4096 [] [] 0) [.e, .w "f"]
          = ⟨[.print .title, .print .conflict], .returned (-1)⟩) ∧
        (s.op = NUL → main (okEnv 1048576 4096 [] [] 0) [.e, .w "f"]
          = ⟨[.print .title, .print .usage], .exited 0⟩) :=
  ⟨(conflicts_rejected_before_device_calls.1 (okEnv 1048576 4096 [] [] 0) [.e, .w "f"]
      (Or.inl (by decide))).1,
    (conflicts_rejected_before_device_calls.1 (okEnv 1048576 4096 [] [] 0) [.e, .w "f"]
      (Or.inl (by decide))).2 (by decide)⟩

end SNANDer
